import Mathlib

/-!
Verification of the VFS garbage-collection stamp registry of
`src/lib/vfs/gc.c`: the stamp record type, the registry operations
(`vfs_stamp`, `vfs_rmstamp`, `vfs_addstamp`, `vfs_stamp_path`,
`vfs_stamp_create`), the expiry sweeper (`vfs_expire` with its
reentrancy latch) and teardown (`vfs_gc_done`), embedded as pure
functions over an explicit registry state.

Modelling conventions:
* a `struct vfs_class *` pointer is modelled by a `Nat` identity;
  the properties gc.c reads from it (`flags & VFSF_LOCAL`,
  `free != NULL`, `nothingisopen`) live in an environment
  `VfsEnv : VClass → ClassProps`;
* a `vfsid` pointer is `Option Nat`, with `none` playing NULL;
* `gettimeofday` results are passed in as explicit `Timeval` arguments;
* the global `GSList *stamps` is a `List Stamping`, in list order
  (`g_slist_append` appends at the tail);
* calls to a backend's `free` callback are made observable as a list of
  the records they were invoked on (empty when `free` is NULL);
* `g_slist_foreach` in `vfs_expire` saves each node's successor before
  invoking the callback, and `vfs_rmstamp` deletes the first matching
  link; `sweepAux` reproduces exactly that: it walks the original node
  sequence while threading the evolving list through first-match
  removals.
-/

namespace VfsGc

/-- `struct timeval`: seconds and microseconds. -/
structure Timeval where
  tv_sec : Int
  tv_usec : Int
deriving DecidableEq

/-- Identity of a `struct vfs_class *` pointer. -/
abbrev VClass := Nat

/-- A `vfsid`; `none` models the NULL pointer. -/
abbrev VfsId := Option Nat

/-- The capabilities of a `vfs_class` that gc.c consults: the
`VFSF_LOCAL` flag, whether the `free` callback is non-NULL, whether the
`nothingisopen` callback is non-NULL, and the latter's return value. -/
structure ClassProps where
  flags_local : Bool
  free_def : Bool
  has_nio : Bool
  nothingisopen : VfsId → Int

/-- Environment mapping each vfs_class identity to its capabilities. -/
abbrev VfsEnv := VClass → ClassProps

/-- `struct vfs_stamping`: backend class, session id, last-touched time. -/
structure Stamping where
  v : VClass
  id : VfsId
  time : Timeval
deriving DecidableEq

/-- The (backend, session) identity key of a record. -/
def stampKey (r : Stamping) : VClass × VfsId := (r.v, r.id)

/-- The keys of all records of a registry, in list order. -/
def keys (st : List Stamping) : List (VClass × VfsId) := st.map stampKey

/-- The registry invariant: no two records share a (backend, session)
key. -/
def NoDupKeys (st : List Stamping) : Prop := (keys st).Nodup

instance (st : List Stamping) : Decidable (NoDupKeys st) := by
  unfold NoDupKeys; infer_instance

/-- `timeoutcmp` of gc.c: nonzero iff `t1` is at most `t2`
(second fields compared strictly, microseconds break the tie with
less-or-equal). -/
def timeoutcmp (t1 t2 : Timeval) : Bool :=
  decide (t1.tv_sec < t2.tv_sec ∨ (t1.tv_sec = t2.tv_sec ∧ t1.tv_usec ≤ t2.tv_usec))

/-- `vfs_stamp_compare` of gc.c: 0 iff same class pointer and same id,
1 otherwise. -/
def vfs_stamp_compare (a b : Stamping) : Int :=
  if a.v = b.v ∧ a.id = b.id then 0 else 1

/-- The per-node test performed by `g_slist_find_custom (stamps, &what,
vfs_stamp_compare)` where `what` carries the sought class and id. -/
def stampFound (v : VClass) (id : VfsId) (r : Stamping) : Bool :=
  decide (vfs_stamp_compare r ⟨v, id, ⟨0, 0⟩⟩ = 0)

/-- `vfs_stamp` of gc.c: find the first record matching (v, id); if
found, overwrite its time with the current time and report true,
otherwise report false.  Returns (found, updated registry). -/
def vfs_stamp (v : VClass) (id : VfsId) (now : Timeval) :
    List Stamping → Bool × List Stamping
  | [] => (false, [])
  | r :: rest =>
    if stampFound v id r then (true, ⟨r.v, r.id, now⟩ :: rest)
    else
      let p := vfs_stamp v id now rest
      (p.1, r :: p.2)

/-- `vfs_rmstamp` of gc.c: delete the first record matching (v, id),
if any; absence is a no-op.  The backend's `free` callback is not
invoked here. -/
def vfs_rmstamp (v : VClass) (id : VfsId) : List Stamping → List Stamping
  | [] => []
  | r :: rest => if stampFound v id r then rest else r :: vfs_rmstamp v id rest

/-- `vfs_addstamp` of gc.c: when the class is not local and the id is
not NULL, use `vfs_stamp` as the existence check (refreshing the
timestamp on a hit) and append a fresh record at the tail when the
check reports absence. -/
def vfs_addstamp (env : VfsEnv) (v : VClass) (id : VfsId) (now : Timeval)
    (st : List Stamping) : List Stamping :=
  if (env v).flags_local = false ∧ id ≠ none then
    let p := vfs_stamp v id now st
    if p.1 then p.2 else p.2 ++ [⟨v, id, now⟩]
  else st

/-- `vfs_stamp_path` of gc.c, after the (external) path resolution has
produced the final path element's class and the path's id: it is
`vfs_addstamp` on that pair. -/
def vfs_stamp_path (env : VfsEnv) (v : VClass) (id : VfsId) (now : Timeval)
    (st : List Stamping) : List Stamping :=
  vfs_addstamp env v id now st

/-- Result of `vfs_stamp_create`: the updated registry and whether the
"vfs_timestamp" event was raised. -/
structure CreateResult where
  stamps : List Stamping
  notified : Bool
deriving DecidableEq

/-- `vfs_stamp_create` of gc.c.  `listener` is the result of
`mc_event_present` for the "vfs_timestamp" event; `cur_v`, `cur_id` are
the class and id of the current directory resolved inside the function;
`ret` is the value of the event payload's `ret` field after the raise
(listeners may set it to veto stamping); `vclass`, `id` are the
arguments.  With no listener the function returns at once, before the
current directory's stamp is removed. -/
def vfs_stamp_create (env : VfsEnv) (listener : Bool) (cur_v : VClass)
    (cur_id : VfsId) (ret : Bool) (vclass : Option VClass) (id : VfsId)
    (now : Timeval) (st : List Stamping) : CreateResult :=
  if listener = false then ⟨st, false⟩
  else
    let st1 := vfs_rmstamp cur_v cur_id st
    if id = none ∨ (vclass = some cur_v ∧ cur_id = id) then ⟨st1, false⟩
    else
      let st2 :=
        match vclass with
        | none => st1
        | some vc =>
          if ret = false ∧ (env vc).has_nio = true ∧ (env vc).nothingisopen id ≠ 0 then
            vfs_addstamp env vc id now st1
          else st1
      ⟨st2, true⟩

/-- `vfs_stamp_free` of gc.c, with the callback invocation made
observable: the singleton of the record when its class's `free`
callback is non-NULL, nothing otherwise. -/
def vfs_stamp_free (env : VfsEnv) (r : Stamping) : List Stamping :=
  if (env r.v).free_def then [r] else []

/-- Whether `vfs_stamp_expire` of gc.c evicts a record: always when the
sweep is forced (`user_data == NULL`), otherwise iff the record's time
is at most the cutoff (`timeoutcmp` nonzero). -/
def stampExpires (cutoff : Option Timeval) (r : Stamping) : Bool :=
  match cutoff with
  | none => true
  | some t => timeoutcmp r.time t

/-- The `g_slist_foreach (stamps, vfs_stamp_expire, ...)` loop of
`vfs_expire`: walk the original node sequence `orig` (each node's
successor is saved before the callback runs), threading the current
list `st`; an evicted node's `free` callback fires and the first
matching link is deleted by `vfs_rmstamp`.  Returns the final list and
the sequence of records on which `free` was invoked. -/
def sweepAux (env : VfsEnv) (cutoff : Option Timeval) :
    List Stamping → List Stamping → List Stamping × List Stamping
  | [], st => (st, [])
  | r :: rest, st =>
    if stampExpires cutoff r then
      let p := sweepAux env cutoff rest (vfs_rmstamp r.v r.id st)
      (p.1, vfs_stamp_free env r ++ p.2)
    else sweepAux env cutoff rest st

/-- The sweeper state: the registry and the static `locked` latch of
`vfs_expire`. -/
structure GcState where
  stamps : List Stamping
  locked : Bool
deriving DecidableEq

/-- Result of `vfs_expire`: the new state and the sequence of records
on which a backend `free` callback was invoked. -/
structure ExpireResult where
  state : GcState
  released : List Stamping
deriving DecidableEq

/-- The cutoff passed to `vfs_stamp_expire` by `vfs_expire`: NULL for a
forced sweep, otherwise the current time with `vfs_timeout` subtracted
from the seconds field. -/
def cutoffOf (force : Bool) (now : Timeval) (timeout : Int) : Option Timeval :=
  if force then none else some ⟨now.tv_sec - timeout, now.tv_usec⟩

/-- `vfs_expire` of gc.c.  If the latch is set the call returns at once
with no effect.  Otherwise the latch is set, the registry is swept —
unconditionally when `force` is true, against the cutoff
`now - vfs_timeout` (seconds only) when false — and the latch is
cleared. -/
def vfs_expire (env : VfsEnv) (force : Bool) (now : Timeval) (timeout : Int)
    (st : GcState) : ExpireResult :=
  if st.locked then ⟨st, []⟩
  else
    let p := sweepAux env (cutoffOf force now timeout) st.stamps st.stamps
    ⟨⟨p.1, false⟩, p.2⟩

/-- The default of the global `vfs_timeout` (seconds). -/
def vfs_timeout : Int := 60

/-- `vfs_timeouts` of gc.c: 10 when the registry is nonempty, else 0. -/
def vfs_timeouts (st : List Stamping) : Int :=
  if st ≠ [] then 10 else 0

/-- `vfs_gc_done` of gc.c: invoke every record's `free` callback, then
empty the registry. -/
def vfs_gc_done (env : VfsEnv) (st : List Stamping) :
    List Stamping × List Stamping :=
  ([], st.foldr (fun r acc => vfs_stamp_free env r ++ acc) [])

/-- One public operation of the module, with every externally supplied
datum (current time, path-resolution results, current directory, event
listener behaviour) as a parameter. -/
inductive Op where
  | touch (v : VClass) (id : VfsId) (now : Timeval)
  | remove (v : VClass) (id : VfsId)
  | stampPath (v : VClass) (id : VfsId) (now : Timeval)
  | stampCreate (cur_v : VClass) (cur_id : VfsId) (listener ret : Bool)
      (vclass : Option VClass) (id : VfsId) (now : Timeval)
  | expire (force : Bool) (now : Timeval) (timeout : Int)
  | gcDone

/-- The registry after a public operation, paired with the records on
which a backend `free` callback was invoked by that operation.  Only
the sweeper and teardown ever invoke `free`. -/
def applyOpE (env : VfsEnv) (op : Op) (st : List Stamping) :
    List Stamping × List Stamping :=
  match op with
  | .touch v id now => ((vfs_stamp v id now st).2, [])
  | .remove v id => (vfs_rmstamp v id st, [])
  | .stampPath v id now => (vfs_stamp_path env v id now st, [])
  | .stampCreate cur_v cur_id listener ret vclass id now =>
      ((vfs_stamp_create env listener cur_v cur_id ret vclass id now st).stamps, [])
  | .expire force now timeout =>
      let r := vfs_expire env force now timeout ⟨st, false⟩
      (r.state.stamps, r.released)
  | .gcDone => vfs_gc_done env st

/-- The registry after a public operation. -/
def applyOp (env : VfsEnv) (op : Op) (st : List Stamping) : List Stamping :=
  (applyOpE env op st).1

/-- Registry states reachable from the empty registry by sequences of
public operations. -/
inductive Reachable (env : VfsEnv) : List Stamping → Prop where
  | nil : Reachable env []
  | step (st : List Stamping) (op : Op) : Reachable env st →
      Reachable env (applyOp env op st)

/-- Number of records carrying a given (backend, session) key. -/
def countKey (k : VClass × VfsId) (st : List Stamping) : Nat :=
  (keys st).countP (fun x => decide (x = k))

/-- The combined registry invariant: keys are unique, and no record
belongs to a local backend. -/
def RegistryInv (env : VfsEnv) (st : List Stamping) : Prop :=
  NoDupKeys st ∧ ∀ r ∈ st, (env r.v).flags_local = false

/-- A concrete environment for closed evaluations: every backend
non-local, with a `free` callback and a `nothingisopen` callback that
reports nothing open. -/
def env0 : VfsEnv := fun _ => ⟨false, true, true, fun _ => 1⟩

/-- A concrete registry: a record exactly at the sweep cutoff and a
record one microsecond newer. -/
def stW1 : List Stamping := [⟨0, some 1, ⟨100, 5⟩⟩, ⟨1, some 2, ⟨100, 6⟩⟩]

/-- A concrete two-record registry. -/
def stW7 : List Stamping := [⟨0, some 1, ⟨3, 0⟩⟩, ⟨1, some 2, ⟨7, 0⟩⟩]

/-! ### Basic lemmas about the registry operations -/

theorem stampFound_eq (v : VClass) (id : VfsId) (r : Stamping) :
    stampFound v id r = decide (stampKey r = (v, id)) := by
  by_cases h : r.v = v ∧ r.id = id
  · simp [stampFound, vfs_stamp_compare, stampKey, h, Prod.ext_iff]
  · simp only [stampKey, Prod.mk.injEq]
    simp [stampFound, vfs_stamp_compare, h]

theorem ite_found {α : Sort _} (v : VClass) (id : VfsId) (r : Stamping)
    (a b : α) :
    (if stampFound v id r then a else b)
      = if stampKey r = (v, id) then a else b := by
  rw [stampFound_eq]
  by_cases h : stampKey r = (v, id) <;> simp [h]

theorem vfs_stamp_fst (v : VClass) (id : VfsId) (now : Timeval)
    (st : List Stamping) :
    (vfs_stamp v id now st).1 = decide ((v, id) ∈ keys st) := by
  induction st with
  | nil => simp [vfs_stamp, keys]
  | cons r rest ih =>
    rw [vfs_stamp, ite_found]
    by_cases h : stampKey r = (v, id)
    · simp [h, keys]
    · simp only [h, if_neg, not_false_iff]
      simp only [ih, keys, List.map_cons, List.mem_cons]
      have : ¬ (v, id) = stampKey r := fun hc => h hc.symm
      simp [this]

theorem vfs_stamp_keys (v : VClass) (id : VfsId) (now : Timeval)
    (st : List Stamping) :
    keys (vfs_stamp v id now st).2 = keys st := by
  induction st with
  | nil => simp [vfs_stamp]
  | cons r rest ih =>
    rw [vfs_stamp, ite_found]
    by_cases h : stampKey r = (v, id)
    · simp only [h, if_pos]
      simp only [keys, List.map_cons] at *
      simp [← h, stampKey]
    · simp only [h, if_neg, not_false_iff]
      simp only [keys, List.map_cons] at *
      simp [ih]

theorem vfs_stamp_not_mem (v : VClass) (id : VfsId) (now : Timeval)
    (st : List Stamping) (h : (v, id) ∉ keys st) :
    (vfs_stamp v id now st).2 = st := by
  induction st with
  | nil => simp [vfs_stamp]
  | cons r rest ih =>
    simp only [keys, List.map_cons, List.mem_cons] at h
    push_neg at h
    rw [vfs_stamp, ite_found]
    have hk : ¬ stampKey r = (v, id) := fun hc => h.1 hc.symm
    simp only [hk, if_neg, not_false_iff]
    have := ih (by simpa [keys] using h.2)
    simp [this]

theorem map_id_of_forall {α : Type _} (f : α → α) :
    ∀ l : List α, (∀ x ∈ l, f x = x) → l.map f = l
  | [], _ => rfl
  | a :: t, h => by
    simp only [List.map_cons]
    rw [h a (by simp), map_id_of_forall f t (fun x hx => h x (by simp [hx]))]

theorem vfs_stamp_mem_map (v : VClass) (id : VfsId) (now : Timeval)
    (st : List Stamping) (h : NoDupKeys st) :
    (vfs_stamp v id now st).2
      = st.map (fun r => if stampKey r = (v, id) then ⟨r.v, r.id, now⟩ else r) := by
  induction st with
  | nil => simp [vfs_stamp]
  | cons r rest ih =>
    have hnd : NoDupKeys rest := by
      simpa [NoDupKeys, keys] using (List.nodup_cons.mp h).2
    rw [vfs_stamp, ite_found]
    by_cases hk : stampKey r = (v, id)
    · have hnotin : (v, id) ∉ keys rest := by
        have := (List.nodup_cons.mp h).1
        simpa [keys, hk] using this
      simp only [hk, if_pos, List.map_cons]
      refine congrArg (fun l => _ :: l) ?_
      refine (map_id_of_forall _ rest ?_).symm
      intro x hx
      have : ¬ stampKey x = (v, id) := fun hc => hnotin (by
        simpa [keys, hc] using List.mem_map_of_mem stampKey hx)
      simp [this]
    · simp only [hk, if_neg, not_false_iff, List.map_cons]
      simp [ih hnd]

theorem vfs_stamp_length (v : VClass) (id : VfsId) (now : Timeval)
    (st : List Stamping) :
    (vfs_stamp v id now st).2.length = st.length := by
  have h := congrArg List.length (vfs_stamp_keys v id now st)
  simpa [keys] using h

theorem vfs_rmstamp_sublist (v : VClass) (id : VfsId) (st : List Stamping) :
    (vfs_rmstamp v id st).Sublist st := by
  induction st with
  | nil => simp [vfs_rmstamp]
  | cons r rest ih =>
    rw [vfs_rmstamp, ite_found]
    by_cases h : stampKey r = (v, id)
    · simp only [h, if_pos]
      exact List.sublist_cons_self r rest
    · simp only [h, if_neg, not_false_iff]
      exact ih.cons₂ r

theorem vfs_rmstamp_not_mem (v : VClass) (id : VfsId) (st : List Stamping)
    (h : (v, id) ∉ keys st) : vfs_rmstamp v id st = st := by
  induction st with
  | nil => simp [vfs_rmstamp]
  | cons r rest ih =>
    simp only [keys, List.map_cons, List.mem_cons] at h
    push_neg at h
    have hk : ¬ stampKey r = (v, id) := fun hc => h.1 hc.symm
    rw [vfs_rmstamp, ite_found]
    simp only [hk, if_neg, not_false_iff]
    rw [ih (by simpa [keys] using h.2)]

theorem nodupKeys_sublist {st1 st2 : List Stamping} (hsub : st1.Sublist st2)
    (h : NoDupKeys st2) : NoDupKeys st1 :=
  ((hsub.map stampKey).nodup) h

theorem vfs_rmstamp_key_not_mem (v : VClass) (id : VfsId) (st : List Stamping)
    (h : NoDupKeys st) : (v, id) ∉ keys (vfs_rmstamp v id st) := by
  induction st with
  | nil => simp [vfs_rmstamp, keys]
  | cons r rest ih =>
    have hnd : NoDupKeys rest := by
      simpa [NoDupKeys, keys] using (List.nodup_cons.mp h).2
    rw [vfs_rmstamp, ite_found]
    by_cases hk : stampKey r = (v, id)
    · simp only [hk, if_pos]
      have := (List.nodup_cons.mp h).1
      simpa [keys, hk] using this
    · simp only [hk, if_neg, not_false_iff]
      simp only [keys, List.map_cons, List.mem_cons]
      push_neg
      exact ⟨fun hc => hk hc.symm, by simpa [keys] using ih hnd⟩

theorem vfs_rmstamp_append_left (v : VClass) (id : VfsId)
    (pre l : List Stamping) (h : (v, id) ∉ keys pre) :
    vfs_rmstamp v id (pre ++ l) = pre ++ vfs_rmstamp v id l := by
  induction pre with
  | nil => simp
  | cons r rest ih =>
    simp only [keys, List.map_cons, List.mem_cons] at h
    push_neg at h
    have hk : ¬ stampKey r = (v, id) := fun hc => h.1 hc.symm
    simp only [List.cons_append]
    rw [vfs_rmstamp, ite_found]
    simp only [hk, if_neg, not_false_iff]
    rw [ih (by simpa [keys] using h.2)]

theorem vfs_rmstamp_cons_self (r : Stamping) (rest : List Stamping) :
    vfs_rmstamp r.v r.id (r :: rest) = rest := by
  rw [vfs_rmstamp, ite_found]
  simp [stampKey]

/-! ### Lemmas about the conditional-create path -/

theorem countP_eq_one_of_nodup {α : Type _} [DecidableEq α] (k : α) :
    ∀ l : List α, l.Nodup → k ∈ l → l.countP (fun x => decide (x = k)) = 1
  | [], _, h => by simp at h
  | a :: t, hnd, h => by
    have hat : a ∉ t := (List.nodup_cons.mp hnd).1
    rcases List.mem_cons.mp h with rfl | hm
    · rw [List.countP_cons]
      have : t.countP (fun x => decide (x = k)) = 0 := by
        rw [List.countP_eq_zero]
        intro x hx
        simp only [decide_eq_true_eq]
        intro hc; rw [hc] at hx; exact hat hx
      simp [this]
    · have hak : a ≠ k := fun hc => hat (hc ▸ hm)
      rw [List.countP_cons]
      simp only [decide_eq_true_eq, hak, if_neg, not_false_iff]
      rw [countP_eq_one_of_nodup k t (List.nodup_cons.mp hnd).2 hm]

theorem mem_vfs_stamp (v : VClass) (id : VfsId) (now : Timeval)
    (st : List Stamping) (r' : Stamping)
    (h : r' ∈ (vfs_stamp v id now st).2) :
    ∃ r ∈ st, r'.v = r.v ∧ r'.id = r.id := by
  induction st with
  | nil => simp [vfs_stamp] at h
  | cons r rest ih =>
    rw [vfs_stamp, ite_found] at h
    by_cases hk : stampKey r = (v, id)
    · simp only [hk, if_pos] at h
      rcases List.mem_cons.mp h with h1 | h1
      · exact ⟨r, by simp, by simp [h1]⟩
      · exact ⟨r', by simp [h1], rfl, rfl⟩
    · simp only [hk, if_neg, not_false_iff] at h
      rcases List.mem_cons.mp h with h1 | h1
      · exact ⟨r, by simp, by simp [h1]⟩
      · rcases ih h1 with ⟨r0, hr0, he⟩
        exact ⟨r0, by simp [hr0], he⟩

theorem vfs_addstamp_nodup (env : VfsEnv) (v : VClass) (id : VfsId)
    (now : Timeval) (st : List Stamping) (h : NoDupKeys st) :
    NoDupKeys (vfs_addstamp env v id now st) := by
  unfold vfs_addstamp
  by_cases hg : (env v).flags_local = false ∧ id ≠ none
  · rw [if_pos hg]
    by_cases hf : (vfs_stamp v id now st).1 = true
    · rw [if_pos hf]
      have : NoDupKeys (vfs_stamp v id now st).2 := by
        unfold NoDupKeys
        rw [vfs_stamp_keys]
        exact h
      exact this
    · rw [if_neg hf]
      have hmem : (v, id) ∉ keys st := by
        rw [vfs_stamp_fst] at hf
        simpa using hf
      rw [vfs_stamp_not_mem v id now st hmem]
      unfold NoDupKeys keys
      rw [List.map_append]
      rw [List.nodup_append]
      refine ⟨h, by simp, ?_⟩
      intro x hx
      simp only [List.map_cons, List.map_nil, List.mem_singleton]
      intro hx1
      rw [hx1] at hx
      exact hmem (by simpa [keys, stampKey] using hx)
  · rw [if_neg hg]
    exact h

theorem vfs_addstamp_countKey (env : VfsEnv) (v : VClass) (id : VfsId)
    (now : Timeval) (st : List Stamping) (h : NoDupKeys st)
    (hl : (env v).flags_local = false) (hi : id ≠ none) :
    countKey (v, id) (vfs_addstamp env v id now st) = 1 := by
  unfold vfs_addstamp
  rw [if_pos ⟨hl, hi⟩]
  by_cases hf : (vfs_stamp v id now st).1 = true
  · rw [if_pos hf]
    have hmem : (v, id) ∈ keys st := by
      rw [vfs_stamp_fst] at hf
      simpa using hf
    unfold countKey
    rw [vfs_stamp_keys]
    exact countP_eq_one_of_nodup (v, id) (keys st) h hmem
  · rw [if_neg hf]
    have hmem : (v, id) ∉ keys st := by
      rw [vfs_stamp_fst] at hf
      simpa using hf
    rw [vfs_stamp_not_mem v id now st hmem]
    unfold countKey keys
    rw [List.map_append, List.countP_append]
    have h0 : (List.map stampKey st).countP (fun x => decide (x = (v, id))) = 0 := by
      rw [List.countP_eq_zero]
      intro x hx
      simp only [decide_eq_true_eq]
      intro hc; rw [hc] at hx; exact hmem (by simpa [keys] using hx)
    rw [h0]
    simp [stampKey]

theorem mem_vfs_addstamp (env : VfsEnv) (v : VClass) (id : VfsId)
    (now : Timeval) (st : List Stamping) (r' : Stamping)
    (h : r' ∈ vfs_addstamp env v id now st) :
    (∃ r ∈ st, r'.v = r.v) ∨ (env r'.v).flags_local = false := by
  unfold vfs_addstamp at h
  by_cases hg : (env v).flags_local = false ∧ id ≠ none
  · rw [if_pos hg] at h
    by_cases hf : (vfs_stamp v id now st).1 = true
    · rw [if_pos hf] at h
      rcases mem_vfs_stamp v id now st r' h with ⟨r, hr, he, _⟩
      exact Or.inl ⟨r, hr, he⟩
    · rw [if_neg hf] at h
      rcases List.mem_append.mp h with h1 | h1
      · rcases mem_vfs_stamp v id now st r' h1 with ⟨r, hr, he, _⟩
        exact Or.inl ⟨r, hr, he⟩
      · right
        have : r' = ⟨v, id, now⟩ := by simpa using h1
        rw [this]
        exact hg.1
  · rw [if_neg hg] at h
    exact Or.inl ⟨r', h, rfl⟩

/-! ### Lemmas about the sweep -/

theorem sweepAux_state_sublist (env : VfsEnv) (cutoff : Option Timeval)
    (orig : List Stamping) :
    ∀ st : List Stamping, ((sweepAux env cutoff orig st).1).Sublist st := by
  induction orig with
  | nil => intro st; simp [sweepAux]
  | cons r rest ih =>
    intro st
    rw [sweepAux]
    by_cases h : stampExpires cutoff r = true
    · simp only [h, if_pos]
      exact (ih (vfs_rmstamp r.v r.id st)).trans (vfs_rmstamp_sublist r.v r.id st)
    · simp only [h, if_neg, Bool.not_eq_true, not_false_iff]
      exact ih st

theorem sweepAux_released_sublist (env : VfsEnv) (cutoff : Option Timeval)
    (orig : List Stamping) :
    ∀ st : List Stamping, ((sweepAux env cutoff orig st).2).Sublist orig := by
  induction orig with
  | nil => intro st; simp [sweepAux]
  | cons r rest ih =>
    intro st
    rw [sweepAux]
    by_cases h : stampExpires cutoff r = true
    · simp only [h, if_pos]
      unfold vfs_stamp_free
      by_cases hd : (env r.v).free_def = true
      · simp only [hd, if_pos, List.singleton_append]
        exact (ih (vfs_rmstamp r.v r.id st)).cons₂ r
      · simp only [hd, if_neg, Bool.not_eq_true, not_false_iff, List.nil_append]
        exact (ih (vfs_rmstamp r.v r.id st)).cons r
    · simp only [h, if_neg, Bool.not_eq_true, not_false_iff]
      exact (ih st).cons r

theorem sweepAux_forced (env : VfsEnv) (l : List Stamping) :
    sweepAux env none l l = ([], l.filter (fun r => (env r.v).free_def)) := by
  induction l with
  | nil => simp [sweepAux]
  | cons r rest ih =>
    rw [sweepAux]
    simp only [stampExpires, if_pos]
    rw [vfs_rmstamp_cons_self, ih]
    unfold vfs_stamp_free
    by_cases hd : (env r.v).free_def = true
    · simp [hd, List.filter]
    · simp only [hd, if_neg, Bool.not_eq_true, not_false_iff, List.nil_append]
      simp [List.filter, hd]

theorem sweepAux_cutoff (env : VfsEnv) (c : Timeval) (l : List Stamping) :
    ∀ pre : List Stamping, NoDupKeys (pre ++ l) →
    sweepAux env (some c) l (pre ++ l)
      = (pre ++ l.filter (fun r => !(timeoutcmp r.time c)),
         (l.filter (fun r => timeoutcmp r.time c)).filter
           (fun r => (env r.v).free_def)) := by
  induction l with
  | nil => intro pre _; simp [sweepAux]
  | cons r rest ih =>
    intro pre hnd
    have hkey_pre : stampKey r ∉ keys pre := by
      have h1 : (keys (pre ++ r :: rest)).Nodup := hnd
      rw [keys, List.map_append] at h1
      have h2 := (List.nodup_append.mp h1).2.2
      intro hc
      exact h2 hc (by simp [stampKey])
    rw [sweepAux]
    by_cases h : timeoutcmp r.time c = true
    · simp only [stampExpires, h, if_pos]
      have hrm : vfs_rmstamp r.v r.id (pre ++ r :: rest) = pre ++ rest := by
        rw [vfs_rmstamp_append_left r.v r.id pre (r :: rest)
          (by simpa [stampKey] using hkey_pre)]
        rw [vfs_rmstamp_cons_self]
      rw [hrm]
      have hnd2 : NoDupKeys (pre ++ rest) := by
        refine nodupKeys_sublist ?_ hnd
        exact (List.sublist_cons_self r rest).append_left pre
      rw [ih pre hnd2]
      unfold vfs_stamp_free
      by_cases hd : (env r.v).free_def = true
      · simp [List.filter, h, hd]
      · simp only [hd, if_neg, Bool.not_eq_true, not_false_iff, List.nil_append]
        simp [List.filter, h, hd]
    · simp only [stampExpires, h, if_neg, Bool.not_eq_true, not_false_iff]
      have hassoc : pre ++ r :: rest = (pre ++ [r]) ++ rest := by simp
      rw [hassoc] at hnd ⊢
      rw [ih (pre ++ [r]) hnd]
      simp [List.filter, h]

/-! ### The registry invariant and its preservation -/

theorem registryInv_sublist {env : VfsEnv} {st1 st2 : List Stamping}
    (hsub : st1.Sublist st2) (h : RegistryInv env st2) : RegistryInv env st1 :=
  ⟨nodupKeys_sublist hsub h.1, fun r hr => h.2 r (hsub.mem hr)⟩

theorem vfs_stamp_inv (env : VfsEnv) (v : VClass) (id : VfsId) (now : Timeval)
    (st : List Stamping) (h : RegistryInv env st) :
    RegistryInv env (vfs_stamp v id now st).2 := by
  constructor
  · unfold NoDupKeys
    rw [vfs_stamp_keys]
    exact h.1
  · intro r' hr'
    rcases mem_vfs_stamp v id now st r' hr' with ⟨r, hr, he, _⟩
    rw [he]
    exact h.2 r hr

theorem vfs_addstamp_inv (env : VfsEnv) (v : VClass) (id : VfsId)
    (now : Timeval) (st : List Stamping) (h : RegistryInv env st) :
    RegistryInv env (vfs_addstamp env v id now st) := by
  refine ⟨vfs_addstamp_nodup env v id now st h.1, ?_⟩
  intro r' hr'
  rcases mem_vfs_addstamp env v id now st r' hr' with ⟨r, hr, he⟩ | hl
  · rw [he]
    exact h.2 r hr
  · exact hl

theorem vfs_stamp_create_inv (env : VfsEnv) (listener : Bool) (cur_v : VClass)
    (cur_id : VfsId) (ret : Bool) (vclass : Option VClass) (id : VfsId)
    (now : Timeval) (st : List Stamping) (h : RegistryInv env st) :
    RegistryInv env
      (vfs_stamp_create env listener cur_v cur_id ret vclass id now st).stamps := by
  unfold vfs_stamp_create
  by_cases hl : listener = false
  · rw [if_pos hl]
    exact h
  · rw [if_neg hl]
    have h1 : RegistryInv env (vfs_rmstamp cur_v cur_id st) :=
      registryInv_sublist (vfs_rmstamp_sublist cur_v cur_id st) h
    by_cases hc : id = none ∨ (vclass = some cur_v ∧ cur_id = id)
    · rw [if_pos hc]
      exact h1
    · rw [if_neg hc]
      cases vclass with
      | none => exact h1
      | some vc =>
        simp only
        by_cases hr : ret = false ∧ (env vc).has_nio = true ∧
            (env vc).nothingisopen id ≠ 0
        · rw [if_pos hr]
          exact vfs_addstamp_inv env vc id now _ h1
        · rw [if_neg hr]
          exact h1

theorem vfs_expire_unlocked (env : VfsEnv) (force : Bool) (now : Timeval)
    (timeout : Int) (st : List Stamping) :
    vfs_expire env force now timeout ⟨st, false⟩
      = ⟨⟨(sweepAux env (cutoffOf force now timeout) st st).1, false⟩,
         (sweepAux env (cutoffOf force now timeout) st st).2⟩ := rfl

theorem reachable_inv (env : VfsEnv) (st : List Stamping)
    (h : Reachable env st) : RegistryInv env st := by
  induction h with
  | nil => exact ⟨by simp [NoDupKeys, keys], by simp⟩
  | step st0 op _ ih =>
    cases op with
    | touch v id now => exact vfs_stamp_inv env v id now st0 ih
    | remove v id =>
        exact registryInv_sublist (vfs_rmstamp_sublist v id st0) ih
    | stampPath v id now => exact vfs_addstamp_inv env v id now st0 ih
    | stampCreate cur_v cur_id listener ret vclass id now =>
        exact vfs_stamp_create_inv env listener cur_v cur_id ret vclass id
          now st0 ih
    | expire force now timeout =>
        have hsub : ((sweepAux env (cutoffOf force now timeout) st0 st0).1).Sublist
            st0 := sweepAux_state_sublist env (cutoffOf force now timeout) st0 st0
        exact registryInv_sublist hsub ih
    | gcDone =>
        exact ⟨by simp [NoDupKeys, keys, applyOp, applyOpE, vfs_gc_done],
          by simp [applyOp, applyOpE, vfs_gc_done]⟩

/-! ### Claim theorems -/

/-- C1: for every registered record, a non-forced sweep (`vfs_expire`
with now = false) releases and removes the record iff its last-touched
time is at most the cutoff `now - timeout` (equality counting as
expired), and records newer than the cutoff are left unchanged: the
resulting registry is exactly the original filtered to the records
strictly newer than the cutoff, kept as they were, and the `free`
callback fires exactly on the expired records (those whose backend has
one).  The registry is assumed to satisfy its key-uniqueness
invariant. -/
theorem nonforced_sweep_releases_iff_le_cutoff (env : VfsEnv) (now : Timeval)
    (timeout : Int) (st : List Stamping) (h : NoDupKeys st) :
    (vfs_expire env false now timeout ⟨st, false⟩).state.stamps
      = st.filter
          (fun r => !(timeoutcmp r.time ⟨now.tv_sec - timeout, now.tv_usec⟩))
    ∧ (vfs_expire env false now timeout ⟨st, false⟩).released
      = (st.filter
          (fun r => timeoutcmp r.time ⟨now.tv_sec - timeout, now.tv_usec⟩)).filter
          (fun r => (env r.v).free_def) := by
  rw [vfs_expire_unlocked]
  have hc : cutoffOf false now timeout
      = some ⟨now.tv_sec - timeout, now.tv_usec⟩ := rfl
  rw [hc]
  have hsw := sweepAux_cutoff env ⟨now.tv_sec - timeout, now.tv_usec⟩ st []
    (by simpa using h)
  simp only [List.nil_append] at hsw
  rw [hsw]
  exact ⟨rfl, rfl⟩

/-- Witness for C1: with timeout 60 and a sweep at time (160, 5), the
record stamped at (100, 5) — exactly 60 seconds old, i.e. equal to the
cutoff — is released and removed, while the record stamped one
microsecond later is retained unchanged. -/
theorem nonforced_sweep_releases_iff_le_cutoff_witness :
    (vfs_expire env0 false ⟨160, 5⟩ 60 ⟨stW1, false⟩).state.stamps
      = [⟨1, some 2, ⟨100, 6⟩⟩]
    ∧ (vfs_expire env0 false ⟨160, 5⟩ 60 ⟨stW1, false⟩).released
      = [⟨0, some 1, ⟨100, 5⟩⟩] := by
  have h := nonforced_sweep_releases_iff_le_cutoff env0 ⟨160, 5⟩ 60 stW1
    (by decide)
  exact ⟨h.1.trans (by decide), h.2.trans (by decide)⟩

/-- C2: every reachable registry state has at most one record per
(backend, session) pair, and for a non-local backend and non-NULL
session, two invocations of the conditional-create path on the same
pair leave exactly one record for that pair. -/
theorem registry_at_most_one_record (env : VfsEnv) (st st2 : List Stamping)
    (v : VClass) (id : VfsId) (t1 t2 : Timeval) :
    (Reachable env st → NoDupKeys st)
    ∧ ((env v).flags_local = false → id ≠ none → NoDupKeys st2 →
        countKey (v, id)
          (vfs_addstamp env v id t2 (vfs_addstamp env v id t1 st2)) = 1) := by
  constructor
  · intro h
    exact (reachable_inv env st h).1
  · intro hl hi hnd
    have h1 : NoDupKeys (vfs_addstamp env v id t1 st2) :=
      vfs_addstamp_nodup env v id t1 st2 hnd
    exact vfs_addstamp_countKey env v id t2 _ h1 hl hi

/-- Witness for C2: the registry obtained by one `vfs_stamp_path` call
on the empty registry has unique keys, and stamping (0, session 1)
twice on the empty registry leaves exactly one record for that pair. -/
theorem registry_at_most_one_record_witness :
    NoDupKeys (applyOp env0 (Op.stampPath 0 (some 1) ⟨0, 0⟩) [])
    ∧ countKey (0, some 1)
        (vfs_addstamp env0 0 (some 1) ⟨2, 0⟩
          (vfs_addstamp env0 0 (some 1) ⟨1, 0⟩ [])) = 1 := by
  constructor
  · exact (registry_at_most_one_record env0
      (applyOp env0 (Op.stampPath 0 (some 1) ⟨0, 0⟩) []) [] 0 (some 1)
      ⟨0, 0⟩ ⟨0, 0⟩).1
      (Reachable.step [] (Op.stampPath 0 (some 1) ⟨0, 0⟩) Reachable.nil)
  · exact (registry_at_most_one_record env0 [] [] 0 (some 1)
      ⟨1, 0⟩ ⟨2, 0⟩).2 rfl (by decide) (by decide)

/-- C3: a forced sweep (`vfs_expire` with now = true) empties the
registry and invokes the owning backend's `free` callback exactly once
per previously-present record (each record that has one appears exactly
once, in registry order, in the sequence of invocations), regardless of
timestamps. -/
theorem forced_sweep_empties_registry (env : VfsEnv) (now : Timeval)
    (timeout : Int) (st : List Stamping) :
    (vfs_expire env true now timeout ⟨st, false⟩).state.stamps = []
    ∧ (vfs_expire env true now timeout ⟨st, false⟩).released
        = st.filter (fun r => (env r.v).free_def) := by
  rw [vfs_expire_unlocked]
  have hc : cutoffOf true now timeout = none := rfl
  rw [hc, sweepAux_forced env st]
  exact ⟨rfl, rfl⟩

/-- C4: a nested `vfs_expire` call while a sweep is in progress (the
latch set) returns at once with no effect — the state is unchanged and
no record is released — so no record is ever released twice (within one
sweep each key is released at most once), and after an outer sweep
completes the latch is cleared, so a later sweep runs normally. -/
theorem expire_reentrancy_guard (env : VfsEnv) (force : Bool) (now : Timeval)
    (timeout : Int) (st : GcState) :
    (st.locked = true → vfs_expire env force now timeout st = ⟨st, []⟩)
    ∧ (st.locked = false →
        ((vfs_expire env force now timeout st).state.locked = false
         ∧ (NoDupKeys st.stamps →
             NoDupKeys (vfs_expire env force now timeout st).released))) := by
  constructor
  · intro h
    unfold vfs_expire
    rw [if_pos h]
  · intro h
    unfold vfs_expire
    rw [if_neg (by simp [h])]
    refine ⟨rfl, ?_⟩
    intro hnd
    exact nodupKeys_sublist
      (sweepAux_released_sublist env (cutoffOf force now timeout)
        st.stamps st.stamps) hnd

/-- Witness for C4: a nested call on a locked single-record state
returns the state unchanged and releases nothing; an unlocked sweep of
the same registry leaves the latch cleared and releases each key at
most once. -/
theorem expire_reentrancy_guard_witness :
    vfs_expire env0 false ⟨200, 0⟩ 60 ⟨stW7, true⟩ = ⟨⟨stW7, true⟩, []⟩
    ∧ (vfs_expire env0 false ⟨200, 0⟩ 60 ⟨stW7, false⟩).state.locked = false
    ∧ NoDupKeys (vfs_expire env0 false ⟨200, 0⟩ 60 ⟨stW7, false⟩).released := by
  refine ⟨?_, ?_, ?_⟩
  · exact (expire_reentrancy_guard env0 false ⟨200, 0⟩ 60 ⟨stW7, true⟩).1 rfl
  · exact ((expire_reentrancy_guard env0 false ⟨200, 0⟩ 60 ⟨stW7, false⟩).2 rfl).1
  · exact ((expire_reentrancy_guard env0 false ⟨200, 0⟩ 60 ⟨stW7, false⟩).2 rfl).2
      (by decide)

/-- C5: with no listener registered for the "vfs_timestamp"
notification, `vfs_stamp_create` returns immediately and leaves the
registry entirely unchanged — no stamp is removed, no notification is
raised, and no stamp is added — for every argument and prior state. -/
theorem stamp_create_inert_without_listener (env : VfsEnv) (cur_v : VClass)
    (cur_id : VfsId) (ret : Bool) (vclass : Option VClass) (id : VfsId)
    (now : Timeval) (st : List Stamping) :
    vfs_stamp_create env false cur_v cur_id ret vclass id now st
      = ⟨st, false⟩ := rfl

/-- C6 counterexample: navigating from (backend 0, session 5) to
(backend 1, session 7) with no listener registered — i.e.
`vfs_stamp_create` invoked with the left location as argument and the
new location as current directory — does NOT remove the stamp for
session 5: the call leaves the registry unchanged, the (0, session 5)
stamp still present, contradicting the claim that it is removed. -/
theorem navigate_no_listener_counterexample :
    (⟨0, some 5, ⟨10, 0⟩⟩ : Stamping) ∈
      (vfs_stamp_create env0 false 1 (some 7) false (some 0) (some 5)
        ⟨99, 0⟩ [⟨0, some 5, ⟨10, 0⟩⟩]).stamps
    ∧ (vfs_stamp_create env0 false 1 (some 7) false (some 0) (some 5)
        ⟨99, 0⟩ [⟨0, some 5, ⟨10, 0⟩⟩]).stamps
      = [⟨0, some 5, ⟨10, 0⟩⟩] := by
  exact ⟨by decide, by decide⟩

/-- C6 amended: when navigating from location (A, S1) to a different
location (B, S2) with no listener registered for the vfs-timestamp
notification, the registry is left entirely unchanged: the stamp for
S1, if present, REMAINS in the registry (it is neither removed nor
released — A's `free` callback is not invoked), and no new stamp is
created for S1. -/
theorem navigate_no_listener_leaves_stamp (env : VfsEnv) (a b : VClass)
    (s1 s2 : VfsId) (ret : Bool) (now t : Timeval) (st : List Stamping)
    (h : (⟨a, s1, t⟩ : Stamping) ∈ st) :
    (vfs_stamp_create env false b s2 ret (some a) s1 now st).stamps = st
    ∧ (⟨a, s1, t⟩ : Stamping) ∈
        (vfs_stamp_create env false b s2 ret (some a) s1 now st).stamps
    ∧ (applyOpE env (Op.stampCreate b s2 false ret (some a) s1 now) st).2
        = [] := by
  exact ⟨rfl, h, rfl⟩

/-- Witness for C6 amended: concrete navigation from (0, session 5) to
(1, session 7) with a stamp present for session 5. -/
theorem navigate_no_listener_leaves_stamp_witness :
    (vfs_stamp_create env0 false 1 (some 7) false (some 0) (some 5) ⟨99, 0⟩
        [⟨0, some 5, ⟨10, 0⟩⟩]).stamps = [⟨0, some 5, ⟨10, 0⟩⟩]
    ∧ (⟨0, some 5, ⟨10, 0⟩⟩ : Stamping) ∈
        (vfs_stamp_create env0 false 1 (some 7) false (some 0) (some 5)
          ⟨99, 0⟩ [⟨0, some 5, ⟨10, 0⟩⟩]).stamps
    ∧ (applyOpE env0
        (Op.stampCreate 1 (some 7) false false (some 0) (some 5) ⟨99, 0⟩)
        [⟨0, some 5, ⟨10, 0⟩⟩]).2 = [] :=
  navigate_no_listener_leaves_stamp env0 0 1 (some 5) (some 7) false ⟨99, 0⟩
    ⟨10, 0⟩ [⟨0, some 5, ⟨10, 0⟩⟩] (by decide)

/-- C7: `vfs_stamp` (touch) reports whether a record for the pair
exists; on a present pair it overwrites exactly that record's timestamp
with the current time (all other records unchanged, in place) and never
creates a record (the length is preserved); on an absent pair it leaves
the registry exactly as it was and reports false. -/
theorem touch_updates_timestamp_only (v : VClass) (id : VfsId) (now : Timeval)
    (st : List Stamping) (h : NoDupKeys st) :
    ((vfs_stamp v id now st).1 = decide ((v, id) ∈ keys st))
    ∧ (vfs_stamp v id now st).2
        = st.map (fun r => if stampKey r = (v, id) then ⟨r.v, r.id, now⟩ else r)
    ∧ ((v, id) ∉ keys st → (vfs_stamp v id now st).2 = st)
    ∧ (vfs_stamp v id now st).2.length = st.length :=
  ⟨vfs_stamp_fst v id now st, vfs_stamp_mem_map v id now st h,
    vfs_stamp_not_mem v id now st, vfs_stamp_length v id now st⟩

/-- Witness for C7: touching the present pair (0, session 1) updates
its timestamp in place and reports true; touching the absent pair
(5, session 9) changes nothing and reports false. -/
theorem touch_updates_timestamp_only_witness :
    (vfs_stamp 0 (some 1) ⟨50, 0⟩ stW7).1 = true
    ∧ (vfs_stamp 0 (some 1) ⟨50, 0⟩ stW7).2
        = [⟨0, some 1, ⟨50, 0⟩⟩, ⟨1, some 2, ⟨7, 0⟩⟩]
    ∧ (vfs_stamp 5 (some 9) ⟨50, 0⟩ stW7).2 = stW7
    ∧ (vfs_stamp 5 (some 9) ⟨50, 0⟩ stW7).1 = false := by
  have h1 := touch_updates_timestamp_only 0 (some 1) ⟨50, 0⟩ stW7 (by decide)
  have h2 := touch_updates_timestamp_only 5 (some 9) ⟨50, 0⟩ stW7 (by decide)
  refine ⟨h1.1.trans (by decide), h1.2.1.trans (by decide), ?_, ?_⟩
  · exact h2.2.2.1 (by decide)
  · exact h2.1.trans (by decide)

/-- C8: `vfs_rmstamp` (remove) deletes the matching record when one
exists (afterwards no record for the pair remains) and is silently a
no-op when none exists; in neither case does it invoke the backend's
`free` callback; and after removal a subsequent touch of the same pair
reports false. -/
theorem remove_is_silent_and_effective (env : VfsEnv) (v : VClass)
    (id : VfsId) (now : Timeval) (st : List Stamping) (h : NoDupKeys st) :
    ((v, id) ∉ keys st → vfs_rmstamp v id st = st)
    ∧ (v, id) ∉ keys (vfs_rmstamp v id st)
    ∧ (applyOpE env (Op.remove v id) st).2 = []
    ∧ (vfs_stamp v id now (vfs_rmstamp v id st)).1 = false := by
  refine ⟨vfs_rmstamp_not_mem v id st, vfs_rmstamp_key_not_mem v id st h,
    rfl, ?_⟩
  rw [vfs_stamp_fst]
  simpa using vfs_rmstamp_key_not_mem v id st h

/-- Witness for C8: removing (0, session 1) from a two-record registry
leaves no record for that pair, invokes no `free` callback, and a
subsequent touch of the pair reports false; removing the absent pair
(5, session 9) is a no-op. -/
theorem remove_is_silent_and_effective_witness :
    (vfs_rmstamp 5 (some 9) stW7 = stW7)
    ∧ (0, some 1) ∉ keys (vfs_rmstamp 0 (some 1) stW7)
    ∧ (applyOpE env0 (Op.remove 0 (some 1)) stW7).2 = []
    ∧ (vfs_stamp 0 (some 1) ⟨50, 0⟩ (vfs_rmstamp 0 (some 1) stW7)).1
        = false := by
  have h1 := remove_is_silent_and_effective env0 0 (some 1) ⟨50, 0⟩ stW7
    (by decide)
  have h2 := remove_is_silent_and_effective env0 5 (some 9) ⟨50, 0⟩ stW7
    (by decide)
  exact ⟨h2.1 (by decide), h1.2.1, h1.2.2.1, h1.2.2.2⟩

/-- C9: for every backend whose capability set has the local flag set,
no record for that backend is ever present in the registry after any
sequence of public operations: every record of every reachable registry
state belongs to a non-local backend. -/
theorem local_backends_never_stamped (env : VfsEnv) (st : List Stamping)
    (h : Reachable env st) (r : Stamping) (hr : r ∈ st) :
    (env r.v).flags_local = false :=
  (reachable_inv env st h).2 r hr

/-- Witness for C9: the record inserted by a `vfs_stamp_path` call on
the empty registry belongs to a non-local backend. -/
theorem local_backends_never_stamped_witness :
    (env0 (Stamping.mk 0 (some 1) ⟨0, 0⟩).v).flags_local = false :=
  local_backends_never_stamped env0
    (applyOp env0 (Op.stampPath 0 (some 1) ⟨0, 0⟩) [])
    (Reachable.step [] (Op.stampPath 0 (some 1) ⟨0, 0⟩) Reachable.nil)
    ⟨0, some 1, ⟨0, 0⟩⟩ (by decide)

/-- C10: invoking the conditional-create path (`vfs_addstamp`) for a
(backend, session) pair that already has a record does not insert a
duplicate — the registry keeps its length — but, because the existence
check is `vfs_stamp`, refreshes the existing record's timestamp to the
current time (all other records unchanged). -/
theorem addstamp_refreshes_existing (env : VfsEnv) (v : VClass) (id : VfsId)
    (now : Timeval) (st : List Stamping) (h : NoDupKeys st)
    (hl : (env v).flags_local = false) (hi : id ≠ none)
    (hmem : (v, id) ∈ keys st) :
    vfs_addstamp env v id now st
      = st.map (fun r => if stampKey r = (v, id) then ⟨r.v, r.id, now⟩ else r)
    ∧ (vfs_addstamp env v id now st).length = st.length := by
  have hf : (vfs_stamp v id now st).1 = true := by
    rw [vfs_stamp_fst]
    simpa using hmem
  unfold vfs_addstamp
  rw [if_pos ⟨hl, hi⟩, if_pos hf]
  exact ⟨vfs_stamp_mem_map v id now st h, vfs_stamp_length v id now st⟩

/-- Witness for C10: re-stamping the present pair (0, session 1)
refreshes its timestamp to the new time without inserting a record. -/
theorem addstamp_refreshes_existing_witness :
    vfs_addstamp env0 0 (some 1) ⟨80, 0⟩ stW7
      = [⟨0, some 1, ⟨80, 0⟩⟩, ⟨1, some 2, ⟨7, 0⟩⟩]
    ∧ (vfs_addstamp env0 0 (some 1) ⟨80, 0⟩ stW7).length = stW7.length := by
  have h := addstamp_refreshes_existing env0 0 (some 1) ⟨80, 0⟩ stW7
    (by decide) rfl (by decide) (by decide)
  exact ⟨h.1.trans (by decide), h.2⟩

end VfsGc
